import Mathlib

/-!
Verification of the TIA-portal block conversion core (converters between the
canonical JSON document, the interchange XML dialect and SCL text).

Strings from the Python source are modelled as `List Char`.  The relevant
source functions are translated below:

* `tokenizeScl`            ← `TIAXMLGenerator.tokenize_scl_line` (json_to_xml.py 45-136)
* `genTokens` / `createStructuredText`
                           ← `TIAXMLGenerator.create_structured_text_xml` (json_to_xml.py 138-212)
* `generateSections`       ← `generate_sections_xml` (json_to_xml.py 493-567)
* `extractNode` / `extractCode`
                           ← `extract_code_from_network_source` (xml_to_json.py 888-1041)
* `formatLongFunctionCall` ← `format_long_function_call` (xml_to_json.py 1043-1101)
* `xmlToJsonEntry` etc.    ← `xml_to_json` (xml_to_json.py 39-65) and
                             `ConversionHandlers.convert_xml_to_json` (conversion_handlers.py 42-88)

The XML layer is modelled at the level of element trees (`STNode`): the
generator emits a list of structured-text nodes and the extractor walks such a
list, matching the tag/attribute dispatch of the Python source.  Serialising to
XML text and re-parsing is the identity on this node level (`escape_xml`
escapes `&` first and the XML parser un-escapes; attribute and text content
round-trip through the concrete XML syntax), so the node list is the faithful
interface between the two source functions.
-/

namespace TiaConv

/-- Python `str.isspace` restricted to the ASCII whitespace characters that can
occur in SCL code lines. -/
def pyIsSpace (c : Char) : Bool :=
  decide (c.toNat = 32 ∨ c.toNat = 9 ∨ c.toNat = 10 ∨ c.toNat = 11 ∨
    c.toNat = 12 ∨ c.toNat = 13)

/-- Python `str.isdigit` on ASCII. -/
def pyIsDigit (c : Char) : Bool := decide (48 ≤ c.toNat ∧ c.toNat ≤ 57)

/-- Python `str.isalpha` on ASCII. -/
def pyIsAlpha (c : Char) : Bool :=
  decide ((97 ≤ c.toNat ∧ c.toNat ≤ 122) ∨ (65 ≤ c.toNat ∧ c.toNat ≤ 90))

/-- Python `str.isalnum` on ASCII. -/
def pyIsAlnum (c : Char) : Bool := pyIsAlpha c || pyIsDigit c

/-- The double-quote character. -/
def dq : Char := Char.ofNat 34

/-- The single-quote character. -/
def sq : Char := Char.ofNat 39

/-- Python `str.strip()`: drop leading and trailing whitespace. -/
def pyStrip (l : List Char) : List Char :=
  ((l.dropWhile pyIsSpace).reverse.dropWhile pyIsSpace).reverse

/-- `self.scl_operators` (json_to_xml.py 22-26), in source order. -/
def sclOperators : List (List Char) :=
  [":=", "=", "<>", ">", "<", ">=", "<=", "+", "-", "*", "/", "MOD",
   "AND", "OR", "XOR", "NOT", "&", "THEN", "ELSE", "ELSEIF",
   "DO", "TO", "BY", ";", "(", ")", "[", "]", ",", ".", ":"].map String.toList

/-- `sorted(self.scl_operators, key=len, reverse=True)` (json_to_xml.py 68):
Python's stable sort by descending length applied to `sclOperators`. -/
def sortedSclOperators : List (List Char) :=
  ["ELSEIF",
   "THEN", "ELSE",
   "MOD", "AND", "XOR", "NOT",
   ":=", "<>", ">=", "<=", "OR", "DO", "TO", "BY",
   "=", ">", "<", "+", "-", "*", "/", "&", ";", "(", ")", "[", "]", ",", ".", ":"
  ].map String.toList

/-- `self.scl_keywords` (json_to_xml.py 27-33). -/
def sclKeywords : List (List Char) :=
  ["IF", "THEN", "ELSE", "ELSEIF", "END_IF", "CASE", "OF", "END_CASE",
   "FOR", "TO", "BY", "DO", "END_FOR", "WHILE", "END_WHILE",
   "REPEAT", "UNTIL", "END_REPEAT", "EXIT", "CONTINUE", "RETURN",
   "TRUE", "FALSE", "AND", "OR", "XOR", "NOT", "REGION", "END_REGION",
   "ABS", "MIN", "MAX"].map String.toList

/-- The tokens produced by `tokenize_scl_line`: `(token_type, token_value)`
pairs.  A whitespace run stores its length (the Python value is
`str(space_count)`). -/
inductive STok where
  | ws (n : Nat)
  | oper (s : List Char)
  | kw (s : List Char)
  | const (s : List Char)
  | var (s : List Char)
  | unknown (s : List Char)
deriving DecidableEq, Repr

/-- First operator of the length-sorted table that is a prefix of the rest of
the line (json_to_xml.py 68-73). -/
def findOp (l : List Char) : Option (List Char) :=
  sortedSclOperators.find? (fun op => op.isPrefixOf l)

/-- Classification of a scanned identifier (json_to_xml.py 122-129): keywords
are uppercased, `TRUE`/`FALSE` become constants, anything else is a variable
reference kept verbatim. -/
def classifyIdent (ident : List Char) : STok :=
  if ident.map Char.toUpper ∈ sclKeywords then
    if ident.map Char.toUpper = "TRUE".toList ∨ ident.map Char.toUpper = "FALSE".toList
      then STok.const (ident.map Char.toUpper)
      else STok.kw (ident.map Char.toUpper)
  else STok.var ident

/-- One step of the scanner: `tokenize_scl_line`'s `while` body
(json_to_xml.py 56-134).  `fuel` bounds the number of iterations; every
iteration consumes at least one character, so `fuel = l.length` is enough. -/
def tokenizeAux : Nat → List Char → List STok
  | 0, _ => []
  | _, [] => []
  | fuel + 1, c :: cs =>
    if pyIsSpace c then
      -- whitespace run (lines 58-64)
      STok.ws (1 + (cs.takeWhile pyIsSpace).length) ::
        tokenizeAux fuel (cs.dropWhile pyIsSpace)
    else
      match findOp (c :: cs) with
      | some op =>
        -- longest-match operator (lines 67-76)
        STok.oper op :: tokenizeAux fuel ((c :: cs).drop op.length)
      | none =>
        if pyIsDigit c ∨ (c.toUpper = 'T' ∧ cs.head? = some '#') then
          -- numeric / time constants (lines 79-94)
          if c.toUpper = 'T' ∧ cs.head? = some '#' then
            STok.const ('T' :: '#' ::
                (cs.drop 1).takeWhile (fun d => pyIsAlnum d || d = '.' || d = '_')) ::
              tokenizeAux fuel
                ((cs.drop 1).dropWhile (fun d => pyIsAlnum d || d = '.' || d = '_'))
          else
            STok.const (c :: cs.takeWhile (fun d => pyIsDigit d || d = '.')) ::
              tokenizeAux fuel (cs.dropWhile (fun d => pyIsDigit d || d = '.'))
        else if c = dq ∨ c = sq then
          -- string constants, consumed verbatim with the quotes (lines 97-108)
          match cs.dropWhile (fun d => d ≠ c) with
          | [] => [STok.const (c :: cs.takeWhile (fun d => d ≠ c))]
          | _ :: rest =>
            STok.const (c :: (cs.takeWhile (fun d => d ≠ c) ++ [c])) ::
              tokenizeAux fuel rest
        else if pyIsAlpha c ∨ c = '_' ∨ c = '#' then
          -- identifiers, keywords, TRUE/FALSE (lines 111-130); a leading `#`
          -- is kept in the identifier, the scan then continues over
          -- alphanumerics and underscores
          if c = '#' then
            classifyIdent ('#' :: cs.takeWhile (fun d => pyIsAlnum d || d = '_')) ::
              tokenizeAux fuel (cs.dropWhile (fun d => pyIsAlnum d || d = '_'))
          else
            classifyIdent ((c :: cs).takeWhile (fun d => pyIsAlnum d || d = '_')) ::
              tokenizeAux fuel ((c :: cs).dropWhile (fun d => pyIsAlnum d || d = '_'))
        else
          -- unrecognised single characters (lines 132-134)
          STok.unknown [c] :: tokenizeAux fuel cs

/-- `tokenize_scl_line` (json_to_xml.py 45-136): strips the line and scans it
left to right. -/
def tokenizeScl (l : List Char) : List STok :=
  tokenizeAux (pyStrip l).length (pyStrip l)

/-- The text a token contributes to the line, with a whitespace token expanded
to its run length. -/
def tokText : STok → List Char
  | .ws n => List.replicate n ' '
  | .oper s => s
  | .kw s => s
  | .const s => s
  | .var s => s
  | .unknown s => s

/-- Concatenated token texts of a token list. -/
def detok (ts : List STok) : List Char := (ts.map tokText).flatten

/-! ## Structured-text XML nodes

One `STNode` models one direct child of the `StructuredText` element, with the
shapes distinguished by `extract_code_from_network_source`
(xml_to_json.py 908-1023).  `Access` children are modelled by `AccBody`:
either a `Symbol` element (whose children are `Component` and `Token`
elements, in order), or a `Constant` element (with its `Name` attribute and
optional `ConstantValue` child text), or no recognised child.  `Scope="Call"`
accesses and array-index children of `Component` elements are outside this
grammar: the generator never emits them and no claim below concerns them. -/

/-- A child of a `Symbol` element. -/
inductive SymChild where
  | comp (name : List Char)
  | tok (text : List Char)
deriving DecidableEq, Repr

/-- The recognised child shape of an `Access` element. -/
inductive AccBody where
  | symbol (children : List SymChild)
  /-- `Constant` element: `Name` attribute (`[]` when absent) and optional
  `ConstantValue` child text (`child.text or ""` is applied at use sites). -/
  | constant (name : List Char) (value : Option (List Char))
  | empty
deriving DecidableEq, Repr

/-- A direct child of the `StructuredText` element.  Generated nodes carry the
`UId` values assigned by `get_next_uid`; the extractor never reads them. -/
inductive STNode where
  | newline (uid : Nat)
  /-- `Blank`; `num = none` models an absent `Num` attribute. -/
  | blank (num : Option Nat) (uid : Nat)
  | token (text : List Char) (uid : Nat)
  /-- `Text` element with optional text (extraction side only). -/
  | textElem (s : Option (List Char))
  /-- `LineComment` with the texts of its `Text` descendants (extraction side only). -/
  | lineComment (texts : List (List Char))
  /-- `Access` with its `Scope` attribute value and the uids of the emitted
  element and its descendants, in emission order. -/
  | access (scope : List Char) (body : AccBody) (uids : List Nat)
deriving DecidableEq, Repr

/-! ## Generator: `create_structured_text_xml` (json_to_xml.py 138-212) -/

/-- Scope attribute chosen for a `VARIABLE` token (json_to_xml.py 167-178):
`LocalVariable` by default, `GlobalVariable` for a fully quoted name. -/
def varScope (s : List Char) : List Char :=
  if s.head? = some '#' then "LocalVariable".toList
  else if s.head? = some dq ∧ s.getLast? = some dq then "GlobalVariable".toList
  else "LocalVariable".toList

/-- Component name for a `VARIABLE` token (json_to_xml.py 172-178): the token
text with a leading `#` or enclosing quotes removed. -/
def varName (s : List Char) : List Char :=
  if s.head? = some '#' then s.drop 1
  else if s.head? = some dq ∧ s.getLast? = some dq then (s.drop 1).dropLast
  else s

/-- Nodes emitted for one token, threading the `UId` counter exactly as
`get_next_uid` does (json_to_xml.py 155-205). -/
def genTok (t : STok) (c : Nat) : List STNode × Nat :=
  match t with
  | .ws n =>
    -- lines 156-161: `Num` attribute only when the run value is not "1"
    if n = 1 then ([.blank none c], c + 1) else ([.blank (some n) c], c + 1)
  | .kw s => ([.token s c], c + 1)
  | .oper s => ([.token s c], c + 1)
  | .var s =>
    -- lines 167-188: strip a leading `#` (scope LocalVariable) or enclosing
    -- quotes (scope GlobalVariable); the default scope is LocalVariable
    ([.access (varScope s) (.symbol [.comp (varName s)]) [c, c + 1, c + 2]], c + 3)
  | .const s =>
    -- lines 190-201: `T#` prefix selects TypedConstant
    ([.access
        (if "T#".toList.isPrefixOf s then "TypedConstant".toList
         else "LiteralConstant".toList)
        (.constant [] (some s)) [c, c + 1, c + 2]], c + 3)
  | .unknown s => ([.token s c], c + 1)

/-- Nodes emitted for a token list (the `for token_type, token_value in tokens`
loop, json_to_xml.py 155-205). -/
def genToks : List STok → Nat → List STNode × Nat
  | [], c => ([], c)
  | t :: ts, c =>
    ((genTok t c).1 ++ (genToks ts (genTok t c).2).1, (genToks ts (genTok t c).2).2)

/-- Nodes emitted for one line body: nothing when the line strips to empty
(json_to_xml.py 149-151), else the nodes of its tokens. -/
def genLineBody (l : List Char) (c : Nat) : List STNode × Nat :=
  if pyStrip l = [] then ([], c) else genToks (tokenizeScl l) c

/-- Nodes for the lines after the first: a `NewLine` node before each line,
then its body (json_to_xml.py 145-153). -/
def genRestLines : List (List Char) → Nat → List STNode × Nat
  | [], c => ([], c)
  | l :: ls, c =>
    (STNode.newline c ::
        ((genLineBody l (c + 1)).1 ++ (genRestLines ls (genLineBody l (c + 1)).2).1),
     (genRestLines ls (genLineBody l (c + 1)).2).2)

/-- `create_structured_text_xml` (json_to_xml.py 138-212): the children of the
generated `StructuredText` element, together with the final counter value.  A
`NewLine` is emitted before every line except the first. -/
def createStructuredText (lines : List (List Char)) (c : Nat) : List STNode × Nat :=
  match lines with
  | [] => ([], c)
  | l :: ls =>
    ((genLineBody l c).1 ++ (genRestLines ls (genLineBody l c).2).1,
     (genRestLines ls (genLineBody l c).2).2)

/-- The `UId` values a node carries, in emission order. -/
def nodeUids : STNode → List Nat
  | .newline u => [u]
  | .blank _ u => [u]
  | .token _ u => [u]
  | .textElem _ => []
  | .lineComment _ => []
  | .access _ _ us => us

/-- All `UId` values of a node list, in emission order. -/
def uidList (ns : List STNode) : List Nat := (ns.map nodeUids).flatten

/-! ## Extractor: `extract_code_from_network_source` (xml_to_json.py 888-1041) -/

/-- `Symbol` children of a `LocalVariable` access (xml_to_json.py 947-959):
the first `Component` is prefixed with `#`, later ones are appended bare, and
`Token` children contribute their text. -/
def extractSymLocal : List SymChild → Bool → List (List Char)
  | [], _ => []
  | .comp n :: es, firstComp =>
    (if firstComp then '#' :: n else n) :: extractSymLocal es false
  | .tok t :: es, firstComp => t :: extractSymLocal es firstComp

/-- `Symbol` children of a `GlobalVariable`/`GlobalConstant` access
(xml_to_json.py 979-992): the first `Component` contributes the quoted name
(as two buffer entries), later ones are bare, and `Token` children contribute
their text. -/
def extractSymGlobal : List SymChild → Bool → List (List Char)
  | [], _ => []
  | .comp n :: es, firstComp =>
    if firstComp then (dq :: n) :: [dq] :: extractSymGlobal es false
    else n :: extractSymGlobal es false
  | .tok t :: es, firstComp => t :: extractSymGlobal es firstComp

/-- Buffer entries contributed by an `Access` node
(xml_to_json.py 931-1023). -/
def extractAccess (scope : List Char) (body : AccBody) : List (List Char) :=
  if scope = "LocalVariable".toList then
    match body with
    | .symbol es => extractSymLocal es true
    -- no `Symbol` child: the fallback scans for a `Component` descendant
    -- (lines 960-965); a `Constant` child has none, so nothing is appended
    | _ => []
  else if scope = "GlobalVariable".toList ∨ scope = "GlobalConstant".toList then
    match body with
    | .symbol es => extractSymGlobal es true
    | .constant n _ => if n = [] then [] else [dq :: (n ++ [dq])]
    | .empty => []
  else if scope = "LiteralConstant".toList ∨ scope = "TypedConstant".toList then
    match body with
    -- first `ConstantValue` descendant, `constant.text or ""`
    -- (lines 1005-1017); absent `ConstantValue` appends nothing
    | .constant _ (some v) => [v]
    | _ => []
  else
    -- unrecognised scopes (including `Call`, outside this node grammar)
    []

/-- Extraction state: finished lines and the token buffer of the current
line. -/
structure ExtState where
  lines : List (List Char)
  buf : List (List Char)
deriving DecidableEq, Repr

/-- One step of the `for child in structured_text` loop
(xml_to_json.py 908-1023). -/
def extractNode (st : ExtState) (n : STNode) : ExtState :=
  match n with
  | .token t _ => { st with buf := st.buf ++ [t] }
  | .blank num _ => { st with buf := st.buf ++ [List.replicate (num.getD 1) ' '] }
  | .newline _ => { lines := st.lines ++ [st.buf.flatten], buf := [] }
  | .textElem s =>
    match s with
    | some t => if t = [] then st else { st with buf := st.buf ++ [t] }
    | none => st
  | .lineComment ts =>
    let text := ts.flatten
    if text = [] then st else { st with buf := st.buf ++ [("// ".toList ++ text)] }
  | .access scope body _ => { st with buf := st.buf ++ extractAccess scope body }

/-- The element walk of `extract_code_from_network_source`, from a given
state. -/
def extractNodes (st : ExtState) (ns : List STNode) : ExtState :=
  ns.foldl extractNode st

/-- Code lines before post-processing: walk the nodes, then flush a trailing
non-empty buffer as a final line (xml_to_json.py 1025-1027). -/
def extractLines (ns : List STNode) : List (List Char) :=
  let st := extractNodes ⟨[], []⟩ ns
  if st.buf = [] then st.lines else st.lines ++ [st.buf.flatten]

/-- The reflow trigger for long call lines (xml_to_json.py 1032). -/
def reflowTrigger (l : List Char) : Prop :=
  120 < l.length ∧ '(' ∈ l ∧ ":=".toList.IsInfix l ∧ ',' ∈ l

instance (l : List Char) : Decidable (reflowTrigger l) := by
  unfold reflowTrigger; infer_instance

/-! ## `format_long_function_call` (xml_to_json.py 1043-1101) -/

/-- The parameter-splitting loop (xml_to_json.py 1069-1083): walk the
characters tracking parenthesis depth; a comma at depth zero closes the
current chunk (stripped) without being kept, every other character is
appended.  Returns the closed chunks and the final unclosed chunk. -/
def splitParams : List Char → Int → List Char → List (List Char) →
    List (List Char) × List Char
  | [], _, cur, acc => (acc, cur)
  | ch :: cs, d, cur, acc =>
    if ch = '(' then splitParams cs (d + 1) (cur ++ [ch]) acc
    else if ch = ')' then splitParams cs (d - 1) (cur ++ [ch]) acc
    else if ch = ',' ∧ d = 0 then splitParams cs d [] (acc ++ [pyStrip cur])
    else splitParams cs d (cur ++ [ch]) acc

/-- The ending detection of `format_long_function_call`
(xml_to_json.py 1059-1067): split the text after the opening parenthesis into
the parameter region and the removed `");"` / `")"` ending. -/
def splitEnding (afterParen : List Char) : List Char × List Char :=
  if (");").toList.isSuffixOf afterParen then
    (afterParen.dropLast.dropLast, (");").toList)
  else if (")").toList.isSuffixOf afterParen then
    (afterParen.dropLast, (")").toList)
  else (afterParen, [])

/-- The output loop of `format_long_function_call` (xml_to_json.py 1094-1099):
every parameter on its own indented line ending in a comma, the last one
instead carrying the removed ending. -/
def renderParams (paramIndent ending : List Char) : List (List Char) → List (List Char)
  | [] => []
  | [p] => [paramIndent ++ p ++ ending]
  | p :: ps => (paramIndent ++ p ++ [',']) :: renderParams paramIndent ending ps

/-- The parameter-splitting state of `format_long_function_call` for a line
and the position of its first opening parenthesis: closed chunks and the final
unclosed chunk (xml_to_json.py 1069-1083). -/
def fmtSplit (line : List Char) (parenPos : Nat) : List (List Char) × List Char :=
  splitParams (splitEnding (line.drop (parenPos + 1))).1 0 [] []

/-- The parameter list of `format_long_function_call` (xml_to_json.py
1085-1087): the final chunk is kept only when it does not strip to empty. -/
def fmtParams (line : List Char) (parenPos : Nat) : List (List Char) :=
  if pyStrip (fmtSplit line parenPos).2 = [] then (fmtSplit line parenPos).1
  else (fmtSplit line parenPos).1 ++ [pyStrip (fmtSplit line parenPos).2]

/-- `format_long_function_call` (xml_to_json.py 1043-1101). -/
def formatLongFunctionCall (line : List Char) : List (List Char) :=
  match line.findIdx? (fun c => c = '(') with
  | none => [line]
  | some parenPos =>
    if (fmtParams line parenPos).length ≤ 2 then [line]
    else
      line.take (parenPos + 1) ::
        renderParams
          (List.replicate ((line.length - (line.dropWhile pyIsSpace).length) + 4) ' ')
          (splitEnding (line.drop (parenPos + 1))).2
          (fmtParams line parenPos)

/-- Full code extraction including the long-call reflow
(xml_to_json.py 1029-1037). -/
def extractCode (ns : List STNode) : List (List Char) :=
  (extractLines ns).flatMap fun l =>
    if reflowTrigger l then formatLongFunctionCall l else [l]

/-- `json_to_xml` (json_to_xml.py 614-619): only code-bearing block kinds get
a structured-text region, generated with the counter reset to 21. -/
def jsonToXmlStructuredText (blockType : String) (codeLines : List (List Char)) :
    Option (List STNode) :=
  if blockType = "FB" ∨ blockType = "FC" ∨ blockType = "OB" then
    some (createStructuredText codeLines 21).1
  else none

/-- Normalisation under which the lexer preserves a line exactly: whitespace
characters become a space, letters become uppercase. -/
def np (c : Char) : Char := if pyIsSpace c then ' ' else Char.toUpper c

/-- Tokens whose generated nodes extract back to exactly the token text: all
tokens except bare (non-`#`-prefixed) variable references. -/
def tokLineSafe : STok → Prop
  | .var s => s.head? = some '#'
  | _ => True

instance : DecidablePred tokLineSafe := fun t => by
  cases t <;> simp only [tokLineSafe] <;> infer_instance

/-- A safe line: the lexer's token texts reassemble to the line itself and
every variable token carries the `#` prefix. -/
def lineSafe (l : List Char) : Prop :=
  detok (tokenizeScl l) = l ∧ ∀ t ∈ tokenizeScl l, tokLineSafe t

instance (l : List Char) : Decidable (lineSafe l) := by
  unfold lineSafe; infer_instance

/-- A string with all whitespace characters removed. -/
def sansWs (l : List Char) : List Char := l.filter (fun c => !pyIsSpace c)

/-- Whitespace-free reading of the split state: the closed chunks followed by
commas, then the open chunk. -/
def joinC (acc : List (List Char)) (cur : List Char) : List Char :=
  (acc.map fun p => sansWs p ++ [',']).flatten ++ sansWs cur

/-! ## Sections generation: `generate_sections_xml` (json_to_xml.py 493-567) -/

/-- One generated `<Member Name=... Datatype=... />` entry (attribute escaping
is the identity at this level). -/
structure MemberX where
  name : String
  datatype : String
deriving DecidableEq, Repr

/-- One generated `<Section Name=...>` element with its member entries;
`members = []` is the explicitly empty marker `<Section Name=... />`. -/
structure SectionX where
  name : String
  members : List MemberX
deriving DecidableEq, Repr

/-- Python `sections.get(key, [])` over the JSON sections object. -/
def sectionsGet (sections : List (String × List MemberX)) (key : String) :
    List MemberX :=
  match sections.find? (fun p => p.1 = key) with
  | some p => p.2
  | none => []

/-- The `section_order` tables of `generate_sections_xml`
(json_to_xml.py 510-537); the final branch is the FB default. -/
def sectionOrder (blockType : String) : List (String × String) :=
  if blockType = "FC" then
    [("input_section", "Input"), ("output_section", "Output"),
     ("in_out_section", "InOut"), ("temp_section", "Temp"),
     ("constant_section", "Constant"), ("return_section", "Return")]
  else if blockType = "OB" then
    [("input_section", "Input"), ("temp_section", "Temp"),
     ("constant_section", "Constant")]
  else if blockType = "GlobalDB" ∨ blockType = "InstanceDB" then
    [("static_section", "Static")]
  else
    [("input_section", "Input"), ("output_section", "Output"),
     ("in_out_section", "InOut"), ("static_section", "Static"),
     ("temp_section", "Temp"), ("constant_section", "Constant")]

/-- Python truthiness of the optional `returnType` metadata value. -/
def pyTruthyStr : Option String → Bool
  | none => false
  | some s => !s.isEmpty

/-- `generate_sections_xml` (json_to_xml.py 539-567) at the level of emitted
`Section` elements: one element per `section_order` entry, the FC
`return_section` special-cased (json_to_xml.py 541-548), every other entry
carrying the JSON members of its section (an empty marker when there are
none). -/
def generateSections (sections : List (String × List MemberX))
    (blockType : String) (returnType : Option String) : List SectionX :=
  (sectionOrder blockType).map fun p =>
    if p.1 = "return_section" ∧ blockType = "FC" then
      if pyTruthyStr returnType ∧ returnType ≠ some "Void" then
        ⟨"Return", [⟨"Ret_Val", returnType.getD ""⟩]⟩
      else ⟨"Return", []⟩
    else ⟨p.2, sectionsGet sections p.1⟩

/-! ## Failure propagation: `xml_to_json` and the conversion handlers (C7) -/

/-- The supported-block search state of a parsed document
(xml_to_json.py 52-62) plus its structured-code region. -/
structure XmlDocM where
  hasFB : Bool
  hasOB : Bool
  hasFC : Bool
  hasGlobalDB : Bool
  networkSource : Option (List STNode)
deriving DecidableEq, Repr

/-- Outcome of `ET.parse` on the input file: the parser either raises
`ParseError` (caught at xml_to_json.py 41-46) or yields a document. -/
inductive XmlParse where
  | parseError
  | parsed (doc : XmlDocM)
deriving DecidableEq, Repr

/-- The block search of `xml_to_json` (xml_to_json.py 52-62): FB, then OB,
then FC, then GlobalDB; `none` when no supported block element exists. -/
def findBlockType (d : XmlDocM) : Option String :=
  if d.hasFB then some "FB"
  else if d.hasOB then some "OB"
  else if d.hasFC then some "FC"
  else if d.hasGlobalDB then some "GlobalDB"
  else none

/-- A produced conversion artifact: block type and extracted code lines. -/
structure ConvArtifact where
  blockType : String
  code : List (List Char)
deriving DecidableEq, Repr

/-- The abort skeleton of `xml_to_json` (xml_to_json.py 39-65): a parse error
or a missing supported block element returns `None` before any output is
written, so `none` here means no (partial) artifact exists; on success the
code region is extracted from the structured-text nodes.  (Later failure
points of the source behave the same way and are not modelled.) -/
def xmlToJsonEntry (input : XmlParse) : Option ConvArtifact :=
  match input with
  | .parseError => none
  | .parsed d =>
    match findBlockType d with
    | none => none
    | some bt =>
      some ⟨bt, match d.networkSource with
                | some ns => extractCode ns
                | none => []⟩

/-- The block-type label of `patched_xml_to_json` (xml_to_json.py 517-536):
the search walks every element and takes the first whose tag ends in `.FB`,
`.OB`, `.FC` or `.GlobalDB`; when none exists the label stays `"Unknown"`.
(The source picks the first matching element in document order; this model
decides by tag kind in the same check order, which coincides whenever at most
one block kind is present — the interchange-export shape.) -/
def patchedBlockTypeLabel (d : XmlDocM) : String :=
  if d.hasFB then "FB"
  else if d.hasOB then "OB"
  else if d.hasFC then "FC"
  else if d.hasGlobalDB then "GlobalDB"
  else "Unknown"

/-- `patched_xml_to_json` (xml_to_json.py 504-646): only a parse error
returns `None` (before any write).  Any successfully parsed document — even
one with no supported block element — is converted: the `if block is not
None:` body (metadata and code extraction, the latter via
`extract_code_from_network_source`) is simply skipped when no block was
found, and the JSON artifact is still written and its (truthy) content
returned, with the block type left `"Unknown"`. -/
def patchedXmlToJson (input : XmlParse) : Option ConvArtifact :=
  match input with
  | .parseError => none
  | .parsed d =>
    some ⟨patchedBlockTypeLabel d,
      if d.hasFB || d.hasOB || d.hasFC || d.hasGlobalDB then
        match d.networkSource with
        | some ns => extractCode ns
        | none => []
      else []⟩

/-- Result dictionary of a conversion handler: `{"success": true, ...}` or
`{"success": false, "error": msg}`. -/
inductive HandlerResult where
  | ok
  | fail (errorMsg : String)
deriving DecidableEq, Repr

/-- `ConversionHandlers.use_patched_xml_to_json`: set to `True` in `__init__`
(conversion_handlers.py 40) and never written again anywhere in the
repository, so the handler always dispatches to `patched_xml_to_json`. -/
def usePatchedXmlToJson : Bool := true

/-- `ConversionHandlers.convert_xml_to_json` (conversion_handlers.py 42-88):
dispatches on `use_patched_xml_to_json` (conversion_handlers.py 64-67); a
`None` from the converter becomes a typed failure result carrying the fixed
human-readable message naming the supported block elements, any other return
a success result. -/
def convertXmlToJsonHandler (input : XmlParse) : HandlerResult :=
  match (if usePatchedXmlToJson then patchedXmlToJson input
         else xmlToJsonEntry input) with
  | some _ => .ok
  | none => .fail
      "XML to JSON conversion failed - check if the XML contains a supported block type (FB/OB/FC/GlobalDB)"

/-- `SCLToJSONConverter.scl_to_json` (scl_to_json.py 308-351): any exception
raised while parsing is caught and `None` is returned; the output file is
written only after parsing succeeds, so a parse exception yields no
artifact. -/
def sclToJson (parseOutcome : Except String (List (List Char))) :
    Option (List (List Char)) :=
  match parseOutcome with
  | .error _ => none
  | .ok doc => some doc

/-- `ConversionHandlers.convert_scl_to_json` (conversion_handlers.py 178-219):
wraps a `None` from the converter into a typed failure result. -/
def convertSclToJsonHandler (parseOutcome : Except String (List (List Char))) :
    HandlerResult :=
  match sclToJson parseOutcome with
  | some _ => .ok
  | none => .fail "SCL to JSON conversion failed - check SCL syntax and structure"

/-! ## Character-level lemmas -/

lemma char_toNat_ofNat {n : Nat} (h : n.isValidChar) : (Char.ofNat n).toNat = n := by
  simp only [Char.ofNat, dif_pos h, Char.ofNatAux, Char.toNat]
  show (UInt32.toNat ⟨⟨⟨n, _⟩⟩⟩) = n
  rfl

lemma char_toNat_inj {a b : Char} (h : a.toNat = b.toNat) : a = b := by
  have := congrArg Char.ofNat h
  rwa [Char.ofNat_toNat, Char.ofNat_toNat] at this

lemma toUpper_eq_ite (c : Char) :
    Char.toUpper c =
      if 97 ≤ c.toNat ∧ c.toNat ≤ 122 then Char.ofNat (c.toNat - 32) else c := rfl

lemma toUpper_toNat (c : Char) :
    (Char.toUpper c).toNat =
      if 97 ≤ c.toNat ∧ c.toNat ≤ 122 then c.toNat - 32 else c.toNat := by
  rw [toUpper_eq_ite]
  split
  · exact char_toNat_ofNat (Or.inl (by omega))
  · rfl

lemma pyIsSpace_toUpper (c : Char) : pyIsSpace (Char.toUpper c) = pyIsSpace c := by
  simp only [pyIsSpace, toUpper_toNat]
  by_cases h : 97 ≤ c.toNat ∧ c.toNat ≤ 122
  · rw [if_pos h]
    exact decide_eq_decide.mpr (by omega)
  · rw [if_neg h]

lemma toUpper_idem (c : Char) : Char.toUpper (Char.toUpper c) = Char.toUpper c := by
  apply char_toNat_inj
  simp only [toUpper_toNat]
  split_ifs <;> omega

lemma np_toUpper (c : Char) : np (Char.toUpper c) = np c := by
  unfold np
  rw [pyIsSpace_toUpper]
  split
  · rfl
  · exact toUpper_idem c

lemma np_of_space {c : Char} (h : pyIsSpace c = true) : np c = ' ' := by
  simp [np, h]

lemma toUpper_of_space {c : Char} (h : pyIsSpace c = true) : Char.toUpper c = c := by
  rw [toUpper_eq_ite, if_neg]
  simp only [pyIsSpace, decide_eq_true_eq] at h
  omega

lemma np_of_toUpper_T {c : Char} (h : Char.toUpper c = 'T') : np c = 'T' := by
  have hs : pyIsSpace c = false := by
    by_contra hc
    have hsp : pyIsSpace c = true := by revert hc; cases pyIsSpace c <;> simp
    have h2 := toUpper_of_space hsp
    rw [h] at h2
    rw [← h2] at hsp
    exact absurd hsp (by decide)
  simp [np, hs, h]

/-! ## UId assignment (C3 infrastructure) -/

lemma uidList_nil : uidList [] = [] := rfl

lemma uidList_append (ns ms : List STNode) :
    uidList (ns ++ ms) = uidList ns ++ uidList ms := by
  simp [uidList]

lemma genTok_uids (t : STok) (c : Nat) :
    ∃ n, uidList (genTok t c).1 = List.range' c n ∧ (genTok t c).2 = c + n := by
  cases t with
  | ws k =>
    refine ⟨1, ?_, ?_⟩ <;> by_cases h : k = 1 <;>
      simp [genTok, h, uidList, nodeUids, List.range'_succ]
  | kw s => exact ⟨1, by simp [genTok, uidList, nodeUids, List.range'_succ], rfl⟩
  | oper s => exact ⟨1, by simp [genTok, uidList, nodeUids, List.range'_succ], rfl⟩
  | const s => exact ⟨3, by simp [genTok, uidList, nodeUids, List.range'_succ], rfl⟩
  | var s => exact ⟨3, by simp [genTok, uidList, nodeUids, List.range'_succ], rfl⟩
  | unknown s => exact ⟨1, by simp [genTok, uidList, nodeUids, List.range'_succ], rfl⟩

lemma range'_glue (c n1 n2 : Nat) :
    List.range' c n1 ++ List.range' (c + n1) n2 = List.range' c (n1 + n2) := by
  have h := List.range'_append c n1 n2 1
  rw [Nat.one_mul] at h
  rw [h, Nat.add_comm]

lemma genToks_uids : ∀ (ts : List STok) (c : Nat),
    ∃ n, uidList (genToks ts c).1 = List.range' c n ∧ (genToks ts c).2 = c + n := by
  intro ts
  induction ts with
  | nil => exact fun c => ⟨0, by simp [genToks, uidList], by simp [genToks]⟩
  | cons t ts ih =>
    intro c
    obtain ⟨n1, h1, h2⟩ := genTok_uids t c
    obtain ⟨n2, h3, h4⟩ := ih (genTok t c).2
    refine ⟨n1 + n2, ?_, by rw [genToks, h4, h2]; omega⟩
    rw [genToks, uidList_append, h1, h2] at *
    rw [h3, range'_glue]

lemma genLineBody_uids (l : List Char) (c : Nat) :
    ∃ n, uidList (genLineBody l c).1 = List.range' c n ∧ (genLineBody l c).2 = c + n := by
  unfold genLineBody
  split
  · exact ⟨0, by simp [uidList], by simp⟩
  · exact genToks_uids _ c

lemma genRestLines_uids : ∀ (ls : List (List Char)) (c : Nat),
    ∃ n, uidList (genRestLines ls c).1 = List.range' c n ∧ (genRestLines ls c).2 = c + n := by
  intro ls
  induction ls with
  | nil => exact fun c => ⟨0, by simp [genRestLines, uidList], by simp [genRestLines]⟩
  | cons l ls ih =>
    intro c
    obtain ⟨n1, h1, h2⟩ := genLineBody_uids l (c + 1)
    obtain ⟨n2, h3, h4⟩ := ih (genLineBody l (c + 1)).2
    refine ⟨1 + n1 + n2, ?_, by rw [genRestLines, h4, h2]; omega⟩
    rw [genRestLines]
    show uidList (STNode.newline c :: _) = _
    have : uidList (STNode.newline c :: ((genLineBody l (c + 1)).1 ++
        (genRestLines ls (genLineBody l (c + 1)).2).1)) =
        [c] ++ uidList ((genLineBody l (c + 1)).1 ++
          (genRestLines ls (genLineBody l (c + 1)).2).1) := by
      simp [uidList, nodeUids]
    rw [this, uidList_append, h1, h2] at *
    rw [h3]
    have hc : [c] = List.range' c 1 := by simp [List.range'_succ]
    rw [hc, range'_glue, range'_glue]
    congr 1
    omega

lemma createStructuredText_uids (lines : List (List Char)) (c : Nat) :
    ∃ n, uidList (createStructuredText lines c).1 = List.range' c n ∧
      (createStructuredText lines c).2 = c + n := by
  cases lines with
  | nil => exact ⟨0, by simp [createStructuredText, uidList], by simp [createStructuredText]⟩
  | cons l ls =>
    obtain ⟨n1, h1, h2⟩ := genLineBody_uids l c
    obtain ⟨n2, h3, h4⟩ := genRestLines_uids ls (genLineBody l c).2
    refine ⟨n1 + n2, ?_, by rw [createStructuredText, h4, h2]; omega⟩
    rw [createStructuredText]
    show uidList ((genLineBody l c).1 ++ _) = _
    rw [uidList_append, h1, h2] at *
    rw [h3, range'_glue]

lemma chain'_succ_range' (s n : Nat) :
    List.Chain' (fun a b => b = a + 1) (List.range' s n) := by
  induction n generalizing s with
  | zero => simp
  | succ k ih =>
    rw [List.range'_succ]
    cases k with
    | zero => simp
    | succ m =>
      rw [List.range'_succ]
      exact List.Chain'.cons rfl (by rw [← List.range'_succ]; exact ih (s + 1))

/-! ## Extraction of generated nodes (C1 infrastructure) -/

lemma extractNodes_append (st : ExtState) (ns ms : List STNode) :
    extractNodes st (ns ++ ms) = extractNodes (extractNodes st ns) ms :=
  List.foldl_append _ _ _ _

lemma extractNodes_cons (st : ExtState) (n : STNode) (ns : List STNode) :
    extractNodes st (n :: ns) = extractNodes (extractNode st n) ns := rfl

lemma extractAccess_literal (n : List Char) (s : List Char) :
    extractAccess "LiteralConstant".toList (.constant n (some s)) = [s] := by
  unfold extractAccess
  rw [if_neg (by decide), if_neg (by decide), if_pos (by decide)]

lemma extractAccess_typed (n : List Char) (s : List Char) :
    extractAccess "TypedConstant".toList (.constant n (some s)) = [s] := by
  unfold extractAccess
  rw [if_neg (by decide), if_neg (by decide), if_pos (by decide)]

lemma extractAccess_local_symbol (es : List SymChild) :
    extractAccess "LocalVariable".toList (.symbol es) = extractSymLocal es true := by
  unfold extractAccess
  rw [if_pos (by decide)]

/-- Extracting the nodes of one safe token appends exactly its text to the
buffer. -/
lemma extract_genTok (t : STok) (c : Nat) (st : ExtState) (h : tokLineSafe t) :
    extractNodes st (genTok t c).1 = ⟨st.lines, st.buf ++ [tokText t]⟩ := by
  cases t with
  | ws n =>
    by_cases h1 : n = 1 <;>
      simp [genTok, h1, extractNodes, extractNode, tokText]
  | kw s => simp [genTok, extractNodes, extractNode, tokText]
  | oper s => simp [genTok, extractNodes, extractNode, tokText]
  | unknown s => simp [genTok, extractNodes, extractNode, tokText]
  | const s =>
    show extractNodes st [STNode.access _ (.constant [] (some s)) _] = _
    by_cases h1 : "T#".toList.isPrefixOf s = true
    · rw [if_pos h1]; rfl
    · rw [if_neg h1]; rfl
  | var s =>
    have hh : s.head? = some '#' := h
    obtain ⟨a, l, rfl⟩ : ∃ a l, s = a :: l := by
      cases s with
      | nil => simp at hh
      | cons a l => exact ⟨a, l, rfl⟩
    have ha : a = '#' := by simpa using hh
    subst ha
    have hscope : varScope ('#' :: l) = "LocalVariable".toList := by
      unfold varScope; rw [if_pos (by simp)]
    have hname : varName ('#' :: l) = l := by
      unfold varName
      rw [if_pos (by simp)]
      rfl
    show extractNodes st
      [STNode.access (varScope ('#' :: l)) (.symbol [.comp (varName ('#' :: l))]) _] = _
    rw [hscope, hname]
    rfl

/-- Extracting the nodes of a list of safe tokens appends the token texts to
the buffer, in order. -/
lemma extract_genToks : ∀ (ts : List STok) (c : Nat) (st : ExtState),
    (∀ t ∈ ts, tokLineSafe t) →
    extractNodes st (genToks ts c).1 = ⟨st.lines, st.buf ++ ts.map tokText⟩ := by
  intro ts
  induction ts with
  | nil => intro c st _; simp [genToks, extractNodes]
  | cons t ts ih =>
    intro c st h
    rw [genToks]
    show extractNodes st ((genTok t c).1 ++ _) = _
    rw [extractNodes_append, extract_genTok t c st (h t (by simp)),
      ih _ _ (fun x hx => h x (by simp [hx]))]
    simp

lemma tokenizeScl_nil : tokenizeScl [] = [] := rfl

lemma lineSafe_strip_empty {l : List Char} (h : lineSafe l) (hs : pyStrip l = []) :
    l = [] := by
  have ht : tokenizeScl l = [] := by
    unfold tokenizeScl
    rw [hs]
    rfl
  have := h.1
  rw [ht] at this
  exact this.symm

lemma lineSafe_toks_ne_nil {l : List Char} (h : lineSafe l) (hne : l ≠ []) :
    tokenizeScl l ≠ [] := by
  intro hc
  have := h.1
  rw [hc] at this
  exact hne this.symm

/-- Extracting the nodes of one generated line body appends the token texts to
the buffer. -/
lemma extract_genLineBody (l : List Char) (c : Nat) (st : ExtState) (h : lineSafe l) :
    extractNodes st (genLineBody l c).1 =
      ⟨st.lines, st.buf ++ (tokenizeScl l).map tokText⟩ := by
  unfold genLineBody
  split
  · rename_i hs
    have hl := lineSafe_strip_empty h hs
    subst hl
    simp [extractNodes, tokenizeScl_nil]
  · exact extract_genToks _ _ _ h.2

lemma chunk_flatten {l : List Char} (h : lineSafe l) :
    ((tokenizeScl l).map tokText).flatten = l := h.1

/-- Extracting the generated nodes of the rest lines: every earlier line is
flushed (the pending buffer first), and the last line's token texts remain in
the buffer. -/
lemma extract_genRestLines : ∀ (ls : List (List Char)) (c : Nat) (st : ExtState),
    (∀ L ∈ ls, lineSafe L) → ls ≠ [] →
    extractNodes st (genRestLines ls c).1 =
      ⟨st.lines ++ [st.buf.flatten] ++ ls.dropLast,
        (tokenizeScl (ls.getLast?.getD [])).map tokText⟩ := by
  intro ls
  induction ls with
  | nil => intro _ _ _ hne; exact absurd rfl hne
  | cons l ls ih =>
    intro c st h _
    rw [genRestLines]
    show extractNodes st (STNode.newline c :: _) = _
    rw [extractNodes_cons]
    have hst1 : extractNode st (STNode.newline c) =
        ⟨st.lines ++ [st.buf.flatten], []⟩ := rfl
    rw [hst1, extractNodes_append,
      extract_genLineBody l _ _ (h l (by simp))]
    cases ls with
    | nil =>
      simp [genRestLines, extractNodes]
    | cons l' ls' =>
      rw [ih _ _ (fun x hx => h x (by simp [hx])) (by simp)]
      have hbuf : (([] : List (List Char)) ++ (tokenizeScl l).map tokText).flatten = l := by
        rw [List.nil_append]
        exact chunk_flatten (h l (by simp))
      rw [List.getLast?_cons_cons]
      have hdl : (l :: l' :: ls').dropLast = l :: (l' :: ls').dropLast :=
        List.dropLast_cons_of_ne_nil (by simp)
      rw [hdl]
      simp only [hbuf]
      simp [List.append_assoc]

/-- Extracting the full generated node list of a safe document recovers its
code lines (before the reflow post-processing step). -/
lemma extract_createStructuredText (lines : List (List Char)) (c : Nat)
    (hsafe : ∀ L ∈ lines, lineSafe L) (hlast : lines.getLast? ≠ some []) :
    extractLines (createStructuredText lines c).1 = lines := by
  cases lines with
  | nil => rfl
  | cons l ls =>
    rw [createStructuredText]
    unfold extractLines
    show (if (extractNodes ⟨[], []⟩ ((genLineBody l c).1 ++ _)).buf = [] then _ else _) = _
    rw [extractNodes_append, extract_genLineBody l _ _ (hsafe l (by simp))]
    cases ls with
    | nil =>
      rw [genRestLines]
      show (if (extractNodes ⟨[], (tokenizeScl l).map tokText⟩ []).buf = [] then _ else _) = _
      have hlne : l ≠ [] := by
        intro hc; subst hc; simp at hlast
      have htne : (tokenizeScl l).map tokText ≠ [] := by
        simp only [ne_eq, List.map_eq_nil_iff]
        exact lineSafe_toks_ne_nil (hsafe l (by simp)) hlne
      rw [if_neg (by simpa [extractNodes] using htne)]
      simp [extractNodes, chunk_flatten (hsafe l (by simp))]
    | cons l' ls' =>
      rw [extract_genRestLines (l' :: ls') _ _
        (fun x hx => hsafe x (by simp [hx])) (by simp)]
      have hlastls : (l' :: ls').getLast? ≠ some [] := by
        rwa [List.getLast?_cons_cons] at hlast
      have hgl : (l' :: ls').getLast?.getD [] = (l' :: ls').getLast (by simp) := by
        rw [List.getLast?_eq_getLast _ (by simp)]
        rfl
      have hglne : (l' :: ls').getLast?.getD [] ≠ [] := by
        rw [hgl]
        intro hc
        rw [List.getLast?_eq_getLast _ (by simp), hc] at hlastls
        exact hlastls rfl
      have hglmem : (l' :: ls').getLast?.getD [] ∈ (l' :: ls' : List (List Char)) := by
        rw [hgl]
        exact List.getLast_mem _
      have htne : (tokenizeScl ((l' :: ls').getLast?.getD [])).map tokText ≠ [] := by
        simp only [ne_eq, List.map_eq_nil_iff]
        exact lineSafe_toks_ne_nil (hsafe _ (by simp [hglmem])) hglne
      rw [if_neg (by simpa using htne)]
      show ([] ++ [((tokenizeScl l).map tokText).flatten] ++ (l' :: ls').dropLast)
        ++ [((tokenizeScl ((l' :: ls').getLast?.getD [])).map tokText).flatten] = _
      rw [chunk_flatten (hsafe l (by simp)),
        chunk_flatten (hsafe _ (by simp [hglmem]))]
      have hfin : (l' :: ls').dropLast ++ [(l' :: ls').getLast?.getD []] = l' :: ls' := by
        rw [hgl]
        exact List.dropLast_concat_getLast _
      rw [List.nil_append, List.append_assoc, hfin]
      rfl

lemma flatMap_id_of_no_reflow : ∀ (ls : List (List Char)),
    (∀ l ∈ ls, ¬ reflowTrigger l) →
    (ls.flatMap fun l => if reflowTrigger l then formatLongFunctionCall l else [l]) = ls := by
  intro ls
  induction ls with
  | nil => intro _; rfl
  | cons l ls ih =>
    intro h
    rw [List.flatMap_cons, if_neg (h l (by simp)), ih (fun x hx => h x (by simp [hx]))]
    rfl

/-- Extracting a run of `Token` nodes appends their texts to the buffer. -/
lemma extract_tokenNodes : ∀ (ts : List (List Char × Nat)) (st : ExtState),
    extractNodes st (ts.map fun p => STNode.token p.1 p.2) =
      ⟨st.lines, st.buf ++ ts.map Prod.fst⟩ := by
  intro ts
  induction ts with
  | nil => intro st; simp [extractNodes]
  | cons p ts ih =>
    intro st
    rw [List.map_cons, extractNodes_cons]
    show extractNodes ⟨st.lines, st.buf ++ [p.1]⟩ _ = _
    rw [ih]
    simp

/-! ## Lexer coverage (C4 infrastructure) -/

lemma detok_cons (t : STok) (ts : List STok) :
    detok (t :: ts) = tokText t ++ detok ts := by
  simp [detok]

lemma length_dropWhile_le (p : Char → Bool) : ∀ (l : List Char),
    (l.dropWhile p).length ≤ l.length := by
  intro l
  induction l with
  | nil => simp
  | cons a l ih =>
    rw [List.dropWhile_cons]
    split
    · exact Nat.le_trans ih (by simp)
    · simp

lemma dropWhile_head_false (p : Char → Bool) : ∀ {l : List Char} {x : Char}
    {xs : List Char}, l.dropWhile p = x :: xs → p x = false := by
  intro l
  induction l with
  | nil => intro x xs h; simp at h
  | cons a l ih =>
    intro x xs h
    rw [List.dropWhile_cons] at h
    split at h
    · exact ih h
    · rename_i ha
      cases h
      exact Bool.not_eq_true _ ▸ (by simpa using ha)

lemma map_np_all_space : ∀ {m : List Char}, (∀ x ∈ m, pyIsSpace x = true) →
    m.map np = List.replicate m.length ' ' := by
  intro m
  induction m with
  | nil => intro _; rfl
  | cons a m ih =>
    intro h
    rw [List.map_cons, np_of_space (h a (by simp)), List.length_cons,
      List.replicate_succ, ih (fun x hx => h x (by simp [hx]))]

lemma map_np_map_toUpper (m : List Char) :
    (m.map Char.toUpper).map np = m.map np := by
  rw [List.map_map]
  exact List.map_congr_left (fun a _ => np_toUpper a)

lemma tokText_classifyIdent_np (I : List Char) :
    (tokText (classifyIdent I)).map np = I.map np := by
  unfold classifyIdent
  split
  · split <;> exact map_np_map_toUpper I
  · rfl

/-- The token texts of the scanned tokens reassemble the input up to the
normalisation `np` (whitespace to spaces, letters to uppercase): the scanner
drops no characters and preserves run lengths. -/
lemma tokenizeAux_covers : ∀ (fuel : Nat) (l : List Char), l.length ≤ fuel →
    (detok (tokenizeAux fuel l)).map np = l.map np := by
  intro fuel
  induction fuel with
  | zero =>
    intro l h
    have hl : l = [] := List.length_eq_zero.mp (Nat.le_zero.mp h)
    subst hl
    rfl
  | succ fuel ih =>
    intro l h
    cases l with
    | nil => rfl
    | cons c cs =>
      have hcs : cs.length ≤ fuel := by
        simpa using Nat.lt_succ_iff.mp (Nat.lt_of_lt_of_le (by simp) h)
      rw [tokenizeAux]
      by_cases hsp : pyIsSpace c = true
      · -- whitespace run
        rw [if_pos hsp, detok_cons]
        have hdrop : (cs.dropWhile pyIsSpace).length ≤ fuel :=
          Nat.le_trans (length_dropWhile_le _ cs) hcs
        rw [List.map_append, ih _ hdrop]
        show (List.replicate (1 + (cs.takeWhile pyIsSpace).length) ' ').map np ++ _ = _
        rw [List.map_replicate]
        have hnp : np ' ' = ' ' := by decide
        rw [hnp]
        conv_rhs => rw [← List.takeWhile_append_dropWhile (p := pyIsSpace) (l := cs)]
        show _ = (c :: (cs.takeWhile pyIsSpace ++ cs.dropWhile pyIsSpace)).map np
        rw [List.map_cons, List.map_append,
          map_np_all_space (fun x hx => List.mem_takeWhile_imp hx),
          np_of_space hsp, Nat.add_comm, List.replicate_succ]
        simp
      · rw [if_neg hsp]
        cases hop : findOp (c :: cs) with
        | some op =>
          dsimp only
          rw [findOp] at hop
          have hpre : op.isPrefixOf (c :: cs) = true := by
            have h0 := List.find?_some hop
            simpa using h0
          have hmem : op ∈ sortedSclOperators := List.mem_of_find?_eq_some hop
          have hne : op ≠ [] := by
            have hall : ∀ o ∈ sortedSclOperators, o ≠ [] := by decide
            exact hall op hmem
          obtain ⟨t, ht⟩ : ∃ t, op ++ t = c :: cs :=
            List.isPrefixOf_iff_prefix.mp hpre
          have hdrop : (c :: cs).drop op.length = t := by
            rw [← ht, List.drop_left]
          have hlen : t.length ≤ fuel := by
            have h1 := congrArg List.length ht
            rw [List.length_append] at h1
            have h2 : 1 ≤ op.length := by
              cases op with
              | nil => exact absurd rfl hne
              | cons _ _ => simp
            simp only [List.length_cons] at h1
            omega
          rw [detok_cons, List.map_append, hdrop, ih _ hlen, ← ht, List.map_append]
          rfl
        | none =>
          dsimp only
          by_cases hnum : pyIsDigit c = true ∨ (c.toUpper = 'T' ∧ cs.head? = some '#')
          · rw [if_pos hnum]
            by_cases hT : c.toUpper = 'T' ∧ cs.head? = some '#'
            · rw [if_pos hT]
              obtain ⟨d, cs', rfl⟩ : ∃ d cs', cs = d :: cs' := by
                cases cs with
                | nil => exact absurd hT.2 (by simp)
                | cons d cs' => exact ⟨d, cs', rfl⟩
              have hd : d = '#' := by simpa using hT.2
              subst hd
              rw [detok_cons]
              simp only [tokText, List.drop_succ_cons, List.drop_zero]
              have hlen2 : (cs'.dropWhile
                  fun d => pyIsAlnum d || d = '.' || d = '_').length ≤ fuel := by
                refine Nat.le_trans (length_dropWhile_le _ cs') ?_
                simp only [List.length_cons] at hcs
                omega
              rw [List.map_append, ih _ hlen2, ← List.map_append]
              have happ : ('T' :: '#' ::
                  (cs'.takeWhile fun d => pyIsAlnum d || d = '.' || d = '_')) ++
                  (cs'.dropWhile fun d => pyIsAlnum d || d = '.' || d = '_') =
                  'T' :: '#' :: cs' := by
                simp [List.takeWhile_append_dropWhile]
              rw [happ, List.map_cons, List.map_cons, List.map_cons, List.map_cons,
                np_of_toUpper_T hT.1]
              have hnpT : np 'T' = 'T' := by decide
              rw [hnpT]
            · rw [if_neg hT, detok_cons]
              simp only [tokText]
              have hlen2 : (cs.dropWhile fun d => pyIsDigit d || d = '.').length ≤ fuel :=
                Nat.le_trans (length_dropWhile_le _ cs) hcs
              rw [List.map_append, ih _ hlen2, ← List.map_append]
              have happ : (c :: cs.takeWhile fun d => pyIsDigit d || d = '.') ++
                  (cs.dropWhile fun d => pyIsDigit d || d = '.') = c :: cs := by
                simp [List.takeWhile_append_dropWhile]
              rw [happ]
          · rw [if_neg hnum]
            by_cases hq : c = dq ∨ c = sq
            · rw [if_pos hq]
              cases hdw : cs.dropWhile (fun d => d ≠ c) with
              | nil =>
                dsimp only
                have hcs2 : cs.takeWhile (fun d => d ≠ c) = cs := by
                  have h1 := List.takeWhile_append_dropWhile (p := fun d => d ≠ c) (l := cs)
                  rw [hdw, List.append_nil] at h1
                  exact h1
                simp only [detok, tokText, List.map_cons, List.map_nil, List.flatten]
                rw [hcs2]
                simp
              | cons d rest =>
                dsimp only
                have hd : d = c := by
                  have h1 := dropWhile_head_false (fun d => d ≠ c) hdw
                  simpa using h1
                subst hd
                rw [detok_cons]
                simp only [tokText]
                have hlen2 : rest.length ≤ fuel := by
                  have h1 : (cs.dropWhile fun x => x ≠ d).length ≤ cs.length :=
                    length_dropWhile_le _ cs
                  rw [hdw] at h1
                  simp only [List.length_cons] at h1
                  omega
                rw [List.map_append, ih _ hlen2, ← List.map_append]
                have happ : (d :: (cs.takeWhile (fun x => x ≠ d) ++ [d])) ++ rest =
                    d :: cs := by
                  have h1 := List.takeWhile_append_dropWhile (p := fun x => x ≠ d) (l := cs)
                  rw [hdw] at h1
                  rw [List.cons_append, List.append_assoc, List.singleton_append, h1]
                rw [happ]
            · rw [if_neg hq]
              by_cases hal : pyIsAlpha c = true ∨ c = '_' ∨ c = '#'
              · rw [if_pos hal]
                by_cases hhash : c = '#'
                · subst hhash
                  rw [if_pos rfl, detok_cons]
                  have hlen2 : (cs.dropWhile fun d => pyIsAlnum d || d = '_').length ≤ fuel :=
                    Nat.le_trans (length_dropWhile_le _ cs) hcs
                  rw [List.map_append, ih _ hlen2, tokText_classifyIdent_np,
                    ← List.map_append]
                  have happ : ('#' :: cs.takeWhile fun d => pyIsAlnum d || d = '_') ++
                      (cs.dropWhile fun d => pyIsAlnum d || d = '_') = '#' :: cs := by
                    simp [List.takeWhile_append_dropWhile]
                  rw [happ]
                · rw [if_neg hhash, detok_cons]
                  have hqc : (pyIsAlnum c || decide (c = '_')) = true := by
                    rcases hal with h1 | h1 | h1
                    · simp [pyIsAlnum, h1]
                    · simp [h1]
                    · exact absurd h1 hhash
                  have hlen2 : ((c :: cs).dropWhile
                      fun d => pyIsAlnum d || d = '_').length ≤ fuel := by
                    rw [List.dropWhile_cons_of_pos
                      (p := fun d => pyIsAlnum d || decide (d = '_')) (l := cs) hqc]
                    exact Nat.le_trans (length_dropWhile_le _ cs) hcs
                  rw [List.map_append, ih _ hlen2, tokText_classifyIdent_np,
                    ← List.map_append, List.takeWhile_append_dropWhile]
              · rw [if_neg hal, detok_cons, List.map_append, ih _ hcs]
                rfl

/-- Coverage for the entry point `tokenize_scl_line`. -/
lemma tokenizeScl_covers (l : List Char) :
    (detok (tokenizeScl l)).map np = (pyStrip l).map np :=
  tokenizeAux_covers _ _ (Nat.le_refl _)

lemma tokenizeScl_ne_nil {l : List Char} (h : pyStrip l ≠ []) :
    tokenizeScl l ≠ [] := by
  intro hc
  have hcov := tokenizeScl_covers l
  rw [hc] at hcov
  have : (pyStrip l).map np = [] := hcov.symm
  exact h (List.map_eq_nil_iff.mp this)

/-! ## Long-call reflow (C8 infrastructure) -/

lemma sansWs_append (l1 l2 : List Char) :
    sansWs (l1 ++ l2) = sansWs l1 ++ sansWs l2 := List.filter_append _ _

lemma sansWs_cons (ch : Char) (cs : List Char) :
    sansWs (ch :: cs) = sansWs [ch] ++ sansWs cs := by
  rw [← List.singleton_append, sansWs_append]

lemma sansWs_dropWhile_space : ∀ (l : List Char),
    sansWs (l.dropWhile pyIsSpace) = sansWs l := by
  intro l
  induction l with
  | nil => rfl
  | cons a l ih =>
    rw [List.dropWhile_cons]
    split
    · rename_i ha
      rw [ih]
      simp [sansWs, List.filter_cons, ha]
    · rfl

lemma sansWs_reverse (l : List Char) : sansWs l.reverse = (sansWs l).reverse :=
  List.filter_reverse _ _

lemma sansWs_pyStrip (l : List Char) : sansWs (pyStrip l) = sansWs l := by
  unfold pyStrip
  rw [sansWs_reverse, sansWs_dropWhile_space, sansWs_reverse, List.reverse_reverse,
    sansWs_dropWhile_space]

lemma sansWs_replicate_space (n : Nat) : sansWs (List.replicate n ' ') = [] := by
  induction n with
  | zero => rfl
  | succ k ih => rw [List.replicate_succ, sansWs_cons, ih]; rfl

lemma joinC_snoc_char (acc : List (List Char)) (cur : List Char) (ch : Char) :
    joinC acc (cur ++ [ch]) = joinC acc cur ++ sansWs [ch] := by
  simp [joinC, sansWs_append, List.append_assoc]

lemma joinC_close (acc : List (List Char)) (cur : List Char) :
    joinC (acc ++ [pyStrip cur]) [] = joinC acc cur ++ [','] := by
  unfold joinC
  rw [List.map_append]
  simp only [List.map_cons, List.map_nil, List.flatten_append, List.flatten_cons,
    List.flatten_nil, List.append_nil]
  rw [sansWs_pyStrip]
  show _ ++ (sansWs cur ++ [','] ) ++ sansWs [] = _
  rw [show sansWs [] = [] from rfl]
  simp [List.append_assoc]

/-- The split loop neither loses nor creates non-whitespace characters: the
whitespace-free reading of the final state is the initial one followed by the
whitespace-free input (each top-level comma consumed from the input reappears
as a chunk separator). -/
lemma splitParams_invariant : ∀ (input : List Char) (d : Int) (cur : List Char)
    (acc : List (List Char)),
    joinC (splitParams input d cur acc).1 (splitParams input d cur acc).2 =
      joinC acc cur ++ sansWs input := by
  intro input
  induction input with
  | nil => intro d cur acc; simp [splitParams, sansWs, joinC]
  | cons ch cs ih =>
    intro d cur acc
    rw [splitParams]
    by_cases h1 : ch = '('
    · rw [if_pos h1, ih, joinC_snoc_char, sansWs_cons ch cs]
      simp [List.append_assoc]
    · rw [if_neg h1]
      by_cases h2 : ch = ')'
      · rw [if_pos h2, ih, joinC_snoc_char, sansWs_cons ch cs]
        simp [List.append_assoc]
      · rw [if_neg h2]
        by_cases h3 : ch = ',' ∧ d = 0
        · rw [if_pos h3, ih, joinC_close, sansWs_cons ch cs, h3.1]
          have hc : sansWs [','] = [','] := by decide
          rw [hc]
          simp [List.append_assoc]
        · rw [if_neg h3, ih, joinC_snoc_char, sansWs_cons ch cs]
          simp [List.append_assoc]

/-- Rendering the parameters keeps exactly the chunks' non-whitespace text,
the separating commas and the ending. -/
lemma renderParams_sansWs (ind ending : List Char) (hind : sansWs ind = []) :
    ∀ (acc : List (List Char)) (q : List Char),
    sansWs (renderParams ind ending (acc ++ [q])).flatten =
      (acc.map fun p => sansWs p ++ [',']).flatten ++ sansWs q ++ sansWs ending := by
  intro acc
  induction acc with
  | nil =>
    intro q
    show sansWs ([ind ++ q ++ ending]).flatten = _
    simp [sansWs_append, hind]
  | cons p acc ih =>
    intro q
    have hmatch : renderParams ind ending ((p :: acc) ++ [q]) =
        (ind ++ p ++ [',']) :: renderParams ind ending (acc ++ [q]) := by
      cases acc <;> rfl
    rw [hmatch, List.flatten_cons, sansWs_append, ih q, sansWs_append, sansWs_append,
      hind]
    have hc : sansWs [','] = [','] := by decide
    rw [hc]
    simp [List.append_assoc]

lemma splitEnding_append (a : List Char) :
    (splitEnding a).1 ++ (splitEnding a).2 = a := by
  unfold splitEnding
  by_cases h1 : ((");").toList).isSuffixOf a = true
  · rw [if_pos h1]
    obtain ⟨t, ht⟩ : ∃ t, t ++ (");").toList = a := List.isSuffixOf_iff_suffix.mp h1
    have hdl : a.dropLast.dropLast = t := by
      rw [← ht]
      show ((t ++ [')', ';']).dropLast).dropLast = t
      rw [show (t ++ [')', ';']) = (t ++ [')']) ++ [';'] by simp,
        List.dropLast_concat, List.dropLast_concat]
    show a.dropLast.dropLast ++ _ = a
    rw [hdl, ht]
  · rw [if_neg h1]
    by_cases h2 : ((")").toList).isSuffixOf a = true
    · rw [if_pos h2]
      obtain ⟨t, ht⟩ : ∃ t, t ++ ((")").toList) = a := List.isSuffixOf_iff_suffix.mp h2
      have hdl : a.dropLast = t := by
        rw [← ht]
        exact List.dropLast_concat
      show a.dropLast ++ _ = a
      rw [hdl, ht]
    · rw [if_neg h2]
      simp

/-! ## Claim theorems -/

/-- C3: every node identity the structured-text generator assigns is unique,
and the sequence of assigned identities is strictly increasing: it is exactly
the consecutive range starting at the configured start value (`json_to_xml`
resets the counter to 21 before generating), one identity per emitted node. -/
theorem uids_unique_strictly_increasing (lines : List (List Char)) (start : Nat) :
    uidList (createStructuredText lines start).1 =
      List.range' start ((createStructuredText lines start).2 - start) ∧
    (uidList (createStructuredText lines start).1).Nodup ∧
    List.Chain' (fun a b => b = a + 1) (uidList (createStructuredText lines start).1) ∧
    jsonToXmlStructuredText "FB" lines = some (createStructuredText lines 21).1 := by
  obtain ⟨n, h1, h2⟩ := createStructuredText_uids lines start
  have hn : (createStructuredText lines start).2 - start = n := by omega
  rw [hn, h1]
  refine ⟨rfl, List.nodup_range' _ _, chain'_succ_range' _ _, ?_⟩
  rw [jsonToXmlStructuredText, if_pos (Or.inl rfl)]

/-- C1 (amended): converting a canonical document to interchange XML and
extracting it back reproduces the code lines exactly — token content and
whitespace-run counts included — provided every line re-assembles from its own
tokens (no leading/trailing whitespace, no lowercase keyword or `t#` spelling,
no whitespace characters other than spaces), every variable token carries the
local `#` prefix (bare and quoted identifiers excluded), no line meets the
long-call reflow trigger, and the final line is not empty. -/
theorem roundtrip_code_lines (lines : List (List Char)) (start : Nat)
    (hsafe : ∀ L ∈ lines, lineSafe L ∧ ¬ reflowTrigger L)
    (hlast : lines.getLast? ≠ some []) :
    extractCode (createStructuredText lines start).1 = lines := by
  unfold extractCode
  rw [extract_createStructuredText lines start (fun L hL => (hsafe L hL).1) hlast]
  exact flatMap_id_of_no_reflow lines (fun L hL => (hsafe L hL).2)

theorem roundtrip_code_lines_witness :
    (∀ L ∈ [("#x := 1;").toList], lineSafe L ∧ ¬ reflowTrigger L) ∧
    ([("#x := 1;").toList] : List (List Char)).getLast? ≠ some [] ∧
    extractCode (createStructuredText [("#x := 1;").toList] 21).1 =
      [("#x := 1;").toList] :=
  ⟨by decide, by decide, roundtrip_code_lines _ 21 (by decide) (by decide)⟩

/-- C1 counterexample: the claim fails as stated.  The spec's token model
allows a local reference with component path `["tag","field"]`, written
`#tag.field`, but the round trip yields `#tag.#field`; a line with leading
whitespace loses it; a trailing empty line is dropped. -/
theorem roundtrip_counterexample :
    extractCode (createStructuredText [("#tag.field").toList] 21).1 =
      [("#tag.#field").toList] ∧
    ("#tag.#field").toList ≠ ("#tag.field").toList ∧
    extractCode (createStructuredText [(" #x").toList] 21).1 = [("#x").toList] ∧
    extractCode (createStructuredText [("#a").toList, ([] : List Char)] 21).1 =
      [("#a").toList] := by
  refine ⟨by decide, by decide, by decide, by decide⟩

/-- C2 counterexample: for the code line `#tag.field` the extraction of the
generated XML yields `#tag.#field`, not the literal text `#tag.field`. -/
theorem scope_fidelity_counterexample :
    ¬ extractCode (createStructuredText [("#tag.field").toList] 1).1 =
        [("#tag.field").toList] := by
  decide

/-- C2 (amended): the lexer splits `#tag.field` into `#tag`, `.`, `field`, so
conversion produces two Access nodes with Scope=LocalVariable holding the
single components `"tag"` and `"field"`, joined by a `.` Token node — not one
Access with the component chain `["tag","field"]` — and since extraction
prefixes every LocalVariable access with `#`, the text reconstructs as
`#tag.#field`. -/
theorem scope_fidelity_amended (c : Nat) :
    (createStructuredText [("#tag.field").toList] c).1 =
      [STNode.access ("LocalVariable").toList (.symbol [.comp ("tag").toList])
        [c, c + 1, c + 2],
       STNode.token (".").toList (c + 3),
       STNode.access ("LocalVariable").toList (.symbol [.comp ("field").toList])
        [c + 4, c + 5, c + 6]] ∧
    extractCode (createStructuredText [("#tag.field").toList] c).1 =
      [("#tag.#field").toList] := by
  constructor
  · rfl
  · rfl

/-- C6 counterexample: the generator classifies the quoted reference
`"gc_Max"` as a `LiteralConstant` access (the lexer consumes quoted names as
string constants), not as `GlobalConstant`. -/
theorem global_constant_scope_counterexample :
    (createStructuredText [("\"gc_Max\"").toList] 1).1 =
      [STNode.access ("LiteralConstant").toList
        (.constant [] (some ("\"gc_Max\"").toList)) [1, 2, 3]] ∧
    ("LiteralConstant").toList ≠ ("GlobalConstant").toList := by
  exact ⟨by decide, by decide⟩

/-- C6 (amended): a quoted reference such as `"gc_Max"` is lexed as a string
constant and converted with Scope `LiteralConstant` (never `GlobalConstant`),
its stored value keeping the quotes; extraction emits the stored value, so the
text reconstructs with the surrounding double quotes intact and never with the
local `#` prefix. -/
theorem global_constant_scope_amended (c : Nat) :
    tokenizeScl ("\"gc_Max\"").toList = [STok.const ("\"gc_Max\"").toList] ∧
    genTok (STok.const ("\"gc_Max\"").toList) c =
      ([STNode.access ("LiteralConstant").toList
        (.constant [] (some ("\"gc_Max\"").toList)) [c, c + 1, c + 2]], c + 3) ∧
    extractCode (createStructuredText [("#x := \"gc_Max\";").toList] c).1 =
      [("#x := \"gc_Max\";").toList] := by
  refine ⟨by decide, ?_, rfl⟩
  have hp : ("T#").toList.isPrefixOf (("\"gc_Max\"").toList) = false := by decide
  simp [genTok, hp]

/-- C9: a whitespace run of length 1 becomes a `Blank` node with no `Num`
attribute, a run of length `n ≥ 2` becomes a `Blank` node with `Num = n`, and
the extractor reads a missing `Num` as 1, so single-space runs survive the
round trip unchanged. -/
theorem blank_num_attribute (n : Nat) (h : 2 ≤ n) :
    (∀ c, genTok (STok.ws 1) c = ([STNode.blank none c], c + 1)) ∧
    (∀ c, genTok (STok.ws n) c = ([STNode.blank (some n) c], c + 1)) ∧
    (∀ st u, extractNode st (STNode.blank none u) =
      ⟨st.lines, st.buf ++ [[' ']]⟩) ∧
    (∀ st c, extractNodes st (genTok (STok.ws 1) c).1 =
      ⟨st.lines, st.buf ++ [[' ']]⟩) := by
  refine ⟨fun c => rfl, fun c => ?_, fun st u => rfl, fun st c => rfl⟩
  show (if n = 1 then _ else _) = _
  rw [if_neg (by omega)]

theorem blank_num_attribute_witness :
    2 ≤ 2 ∧ (∀ c, genTok (STok.ws 2) c = ([STNode.blank (some 2) c], c + 1)) :=
  ⟨by decide, (blank_num_attribute 2 (by decide)).2.1⟩

/-- C10: after the walk of the structured-text nodes, the tokens accumulated
since the last `NewLine` are flushed as one final code line exactly when the
token buffer is non-empty: appending token nodes after a final `NewLine` adds
one more extracted line holding their concatenated text, and appending nothing
adds no (empty) trailing line. -/
theorem trailing_buffer_flush (ns : List STNode) (u : Nat)
    (ts : List (List Char × Nat)) :
    extractLines ((ns ++ [STNode.newline u]) ++ ts.map fun p => STNode.token p.1 p.2) =
      extractLines (ns ++ [STNode.newline u]) ++
        (if ts = [] then [] else [(ts.map Prod.fst).flatten]) := by
  unfold extractLines
  rw [extractNodes_append, extract_tokenNodes]
  have hmid : extractNodes ⟨[], []⟩ (ns ++ [STNode.newline u]) =
      ⟨(extractNodes ⟨[], []⟩ ns).lines ++ [(extractNodes ⟨[], []⟩ ns).buf.flatten], []⟩ := by
    rw [extractNodes_append]
    rfl
  rw [hmid]
  cases ts with
  | nil => simp
  | cons p ts => simp

/-- C4 (amended): for every input line that is non-empty after stripping
leading/trailing whitespace, the lexer returns without error a non-empty token
list covering the stripped line: no characters are dropped (the length is
preserved) and the concatenated token texts — whitespace tokens expanded to
their stored run length — equal the stripped input line up to uppercasing of
letters and normalisation of each whitespace character to a space; a character
starting no recognised construct becomes an `unknown` token rather than
failing the line. -/
theorem lexer_total_coverage (l : List Char) (h : pyStrip l ≠ []) :
    tokenizeScl l ≠ [] ∧
    (detok (tokenizeScl l)).map np = (pyStrip l).map np ∧
    (detok (tokenizeScl l)).length = (pyStrip l).length ∧
    (∀ (fuel : Nat) (c : Char) (cs : List Char),
      pyIsSpace c = false → findOp (c :: cs) = none →
      ¬(pyIsDigit c = true ∨ (c.toUpper = 'T' ∧ cs.head? = some '#')) →
      ¬(c = dq ∨ c = sq) → ¬(pyIsAlpha c = true ∨ c = '_' ∨ c = '#') →
      tokenizeAux (fuel + 1) (c :: cs) = STok.unknown [c] :: tokenizeAux fuel cs) := by
  refine ⟨tokenizeScl_ne_nil h, tokenizeScl_covers l, ?_, ?_⟩
  · have h1 := congrArg List.length (tokenizeScl_covers l)
    simpa using h1
  · intro fuel c cs hsp hop hnum hq hal
    rw [tokenizeAux, if_neg (by simp [hsp]), hop, if_neg hnum, if_neg hq, if_neg hal]

theorem lexer_total_coverage_witness :
    pyStrip (" If #x@y ").toList ≠ [] ∧
    (tokenizeScl (" If #x@y ").toList ≠ [] ∧
      (detok (tokenizeScl (" If #x@y ").toList)).map np =
        (pyStrip (" If #x@y ").toList).map np ∧
      (detok (tokenizeScl (" If #x@y ").toList)).length =
        (pyStrip (" If #x@y ").toList).length ∧
      (∀ (fuel : Nat) (c : Char) (cs : List Char),
        pyIsSpace c = false → findOp (c :: cs) = none →
        ¬(pyIsDigit c = true ∨ (c.toUpper = 'T' ∧ cs.head? = some '#')) →
        ¬(c = dq ∨ c = sq) → ¬(pyIsAlpha c = true ∨ c = '_' ∨ c = '#') →
        tokenizeAux (fuel + 1) (c :: cs) = STok.unknown [c] :: tokenizeAux fuel cs)) :=
  ⟨by decide, lexer_total_coverage _ (by decide)⟩

/-- C4 counterexample: the claim fails as stated.  A whitespace-only line is
non-empty input yet yields an empty token list; lowercase keywords are
uppercased, so concatenating token texts does not reproduce the input; leading
whitespace is stripped; a tab inside a run comes back as a space. -/
theorem lexer_coverage_counterexample :
    ("   ").toList ≠ [] ∧ tokenizeScl ("   ").toList = [] ∧
    detok (tokenizeScl ("if x").toList) = ("IF #x").toList.dropLast.dropLast ++
      ("x").toList ∧
    detok (tokenizeScl ("if x").toList) ≠ ("if x").toList ∧
    detok (tokenizeScl (" #x").toList) = ("#x").toList ∧
    detok (tokenizeScl (" #x").toList) ≠ (" #x").toList ∧
    detok (tokenizeScl ("a\tb").toList) = ("a b").toList ∧
    detok (tokenizeScl ("a\tb").toList) ≠ ("a\tb").toList := by
  refine ⟨by decide, by decide, by decide, by decide, by decide, by decide,
    by decide, by decide⟩

/-- C5: for a Function-Block document the generator emits exactly the six
sections Input, Output, InOut, Static, Temp, Constant, in that order, each
present (as an explicitly empty marker when its JSON section has no members)
and never a Return section; for a Function whose return type is absent, empty
or `Void`, the Return section is emitted and is empty. -/
theorem section_completeness (sections : List (String × List MemberX))
    (rt : Option String) (hrt : rt = none ∨ rt = some "Void") :
    (∀ rt' : Option String, generateSections sections "FB" rt' =
      [⟨"Input", sectionsGet sections "input_section"⟩,
       ⟨"Output", sectionsGet sections "output_section"⟩,
       ⟨"InOut", sectionsGet sections "in_out_section"⟩,
       ⟨"Static", sectionsGet sections "static_section"⟩,
       ⟨"Temp", sectionsGet sections "temp_section"⟩,
       ⟨"Constant", sectionsGet sections "constant_section"⟩]) ∧
    (∀ rt' sx, sx ∈ generateSections sections "FB" rt' → sx.name ≠ "Return") ∧
    (generateSections sections "FC" rt).map SectionX.name =
      ["Input", "Output", "InOut", "Temp", "Constant", "Return"] ∧
    SectionX.mk "Return" [] ∈ generateSections sections "FC" rt := by
  have hfb : ∀ rt' : Option String, generateSections sections "FB" rt' =
      [⟨"Input", sectionsGet sections "input_section"⟩,
       ⟨"Output", sectionsGet sections "output_section"⟩,
       ⟨"InOut", sectionsGet sections "in_out_section"⟩,
       ⟨"Static", sectionsGet sections "static_section"⟩,
       ⟨"Temp", sectionsGet sections "temp_section"⟩,
       ⟨"Constant", sectionsGet sections "constant_section"⟩] := by
    intro rt'
    rfl
  have hfc : generateSections sections "FC" rt =
      [⟨"Input", sectionsGet sections "input_section"⟩,
       ⟨"Output", sectionsGet sections "output_section"⟩,
       ⟨"InOut", sectionsGet sections "in_out_section"⟩,
       ⟨"Temp", sectionsGet sections "temp_section"⟩,
       ⟨"Constant", sectionsGet sections "constant_section"⟩,
       ⟨"Return", []⟩] := by
    rcases hrt with h | h <;> subst h <;> rfl
  refine ⟨hfb, ?_, ?_, ?_⟩
  · intro rt' sx hsx
    rw [hfb rt'] at hsx
    simp only [List.mem_cons, List.not_mem_nil, or_false] at hsx
    rcases hsx with h | h | h | h | h | h <;> subst h <;> simp
  · rw [hfc]
    rfl
  · rw [hfc]
    simp

theorem section_completeness_witness :
    ((none : Option String) = none ∨ (none : Option String) = some "Void") ∧
    (generateSections [] "FC" none).map SectionX.name =
      ["Input", "Output", "InOut", "Temp", "Constant", "Return"] ∧
    SectionX.mk "Return" [] ∈ generateSections [] "FC" none :=
  ⟨Or.inl rfl, (section_completeness [] none (Or.inl rfl)).2.2.1,
    (section_completeness [] none (Or.inl rfl)).2.2.2⟩

/-- C8 (amended): when the long-call reflow fires, it preserves the line's
token content — the concatenation of the produced lines with all whitespace
removed equals the original line with all whitespace removed — provided the
parameter region does not end in a top-level comma followed only by
whitespace (the final split chunk does not strip to empty); and a line with
two or fewer top-level parameters is returned unchanged.  (`extractCode`
applies this reflow exactly to extracted lines longer than 120 characters
containing `(`, `:=` and `,`.) -/
theorem long_call_reflow_preserves_content (line : List Char) (parenPos : Nat)
    (hfind : line.findIdx? (fun c => c = '(') = some parenPos)
    (hcond : pyStrip (fmtSplit line parenPos).2 ≠ [] ∨
      (fmtParams line parenPos).length ≤ 2) :
    sansWs (formatLongFunctionCall line).flatten = sansWs line ∧
    ((fmtParams line parenPos).length ≤ 2 → formatLongFunctionCall line = [line]) := by
  have hfmt : formatLongFunctionCall line =
      if (fmtParams line parenPos).length ≤ 2 then [line]
      else line.take (parenPos + 1) ::
        renderParams
          (List.replicate ((line.length - (line.dropWhile pyIsSpace).length) + 4) ' ')
          (splitEnding (line.drop (parenPos + 1))).2 (fmtParams line parenPos) := by
    unfold formatLongFunctionCall
    rw [hfind]
  by_cases hle : (fmtParams line parenPos).length ≤ 2
  · rw [hfmt, if_pos hle]
    exact ⟨by simp, fun _ => rfl⟩
  · rw [hfmt, if_neg hle]
    refine ⟨?_, fun h => absurd h hle⟩
    have hstrip : pyStrip (fmtSplit line parenPos).2 ≠ [] := by
      rcases hcond with h | h
      · exact h
      · exact absurd h hle
    have hparams : fmtParams line parenPos =
        (fmtSplit line parenPos).1 ++ [pyStrip (fmtSplit line parenPos).2] := by
      unfold fmtParams
      rw [if_neg hstrip]
    rw [hparams, List.flatten_cons, sansWs_append,
      renderParams_sansWs _ _ (sansWs_replicate_space _) _ _, sansWs_pyStrip]
    have hjoin : ((fmtSplit line parenPos).1.map fun p => sansWs p ++ [',']).flatten ++
        sansWs (fmtSplit line parenPos).2 =
        sansWs (splitEnding (line.drop (parenPos + 1))).1 := by
      have hinv := splitParams_invariant
        (splitEnding (line.drop (parenPos + 1))).1 0 [] []
      unfold joinC at hinv
      unfold fmtSplit
      simpa using hinv
    rw [List.append_assoc ((fmtSplit line parenPos).1.map fun p => sansWs p ++ [',']).flatten]
    rw [← List.append_assoc ((fmtSplit line parenPos).1.map fun p => sansWs p ++ [',']).flatten]
    rw [hjoin, ← sansWs_append, splitEnding_append, ← sansWs_append,
      List.take_append_drop]

set_option maxRecDepth 100000 in
theorem long_call_reflow_witness :
    (("    #out := MyBlock(paramOne := #aVeryLongVariableNameNumberOne, paramTwo := #aVeryLongVariableNameNumberTwo, paramThree := 3);").toList.findIdx?
        (fun c => c = '(') = some 19) ∧
    pyStrip (fmtSplit ("    #out := MyBlock(paramOne := #aVeryLongVariableNameNumberOne, paramTwo := #aVeryLongVariableNameNumberTwo, paramThree := 3);").toList 19).2 ≠ [] ∧
    sansWs (formatLongFunctionCall ("    #out := MyBlock(paramOne := #aVeryLongVariableNameNumberOne, paramTwo := #aVeryLongVariableNameNumberTwo, paramThree := 3);").toList).flatten =
      sansWs ("    #out := MyBlock(paramOne := #aVeryLongVariableNameNumberOne, paramTwo := #aVeryLongVariableNameNumberTwo, paramThree := 3);").toList :=
  ⟨by decide, by decide,
    (long_call_reflow_preserves_content _ 19 (by decide) (Or.inl (by decide))).1⟩

set_option maxRecDepth 100000 in
/-- C8 counterexample: the claim fails as stated.  This line is longer than
120 characters, contains `(`, `:=` and `,` (so the reflow fires), yet its
parameter region ends in a top-level comma followed by whitespace: the reflow
drops that comma, so the whitespace-stripped concatenation of the result
differs from the whitespace-stripped original. -/
theorem long_call_reflow_counterexample :
    reflowTrigger ("    #out := MyBlock(paramOne := #aVeryLongVariableNameNumberOne, paramTwo := #aVeryLongVariableNameNumberTwo, paramThree := 3,  );").toList ∧
    sansWs (formatLongFunctionCall ("    #out := MyBlock(paramOne := #aVeryLongVariableNameNumberOne, paramTwo := #aVeryLongVariableNameNumberTwo, paramThree := 3,  );").toList).flatten ≠
      sansWs ("    #out := MyBlock(paramOne := #aVeryLongVariableNameNumberOne, paramTwo := #aVeryLongVariableNameNumberTwo, paramThree := 3,  );").toList := by
  refine ⟨by decide, by decide⟩

/-- C7 counterexample: the claim fails as stated for the enumerated
malformed-input kind "XML containing no supported block element": the
handler's converter flag is permanently `True`, so the deployed path calls
`patched_xml_to_json`, which on a parsed document with no FB/OB/FC/GlobalDB
element still produces (and writes) an artifact — block type `"Unknown"`, no
code — and the caller receives a success result, not a failure. -/
theorem malformed_input_counterexample :
    patchedXmlToJson (.parsed ⟨false, false, false, false, none⟩) =
      some ⟨"Unknown", []⟩ ∧
    convertXmlToJsonHandler (.parsed ⟨false, false, false, false, none⟩) =
      HandlerResult.ok := by
  exact ⟨rfl, rfl⟩

set_option maxRecDepth 4096 in
/-- C7 (amended): XML that fails to parse aborts both converters — `None` is
returned before any output is written — and the caller receives a typed
failure result whose message names the supported block elements; SCL source
whose parsing raises likewise aborts with a typed failure and no artifact.
XML that parses but contains no supported block element FB/OB/FC/GlobalDB
aborts only the unpatched `xml_to_json` converter: the handler's default path
(`use_patched_xml_to_json = True`) calls `patched_xml_to_json`, which
produces and writes an artifact with block type `"Unknown"` and no code, and
reports success to the caller. -/
theorem malformed_input_propagation (d : XmlDocM) (e : String)
    (hnoblock : findBlockType d = none) :
    xmlToJsonEntry XmlParse.parseError = none ∧
    patchedXmlToJson XmlParse.parseError = none ∧
    (∃ msg, convertXmlToJsonHandler XmlParse.parseError = HandlerResult.fail msg ∧
      ("FB/OB/FC/GlobalDB").toList.IsInfix msg.toList) ∧
    sclToJson (.error e) = none ∧
    convertSclToJsonHandler (.error e) =
      .fail "SCL to JSON conversion failed - check SCL syntax and structure" ∧
    xmlToJsonEntry (.parsed d) = none ∧
    patchedXmlToJson (.parsed d) = some ⟨"Unknown", []⟩ ∧
    convertXmlToJsonHandler (.parsed d) = HandlerResult.ok := by
  obtain ⟨fb, ob, fc, db, ns⟩ := d
  have hfalse : fb = false ∧ ob = false ∧ fc = false ∧ db = false := by
    cases fb <;> cases ob <;> cases fc <;> cases db <;> simp_all [findBlockType]
  obtain ⟨h1, h2, h3, h4⟩ := hfalse
  subst h1; subst h2; subst h3; subst h4
  exact ⟨rfl, rfl,
    ⟨"XML to JSON conversion failed - check if the XML contains a supported block type (FB/OB/FC/GlobalDB)",
      rfl, by decide⟩, rfl, rfl, rfl, rfl, rfl⟩

theorem malformed_input_propagation_witness :
    findBlockType ⟨false, false, false, false, none⟩ = none ∧
    xmlToJsonEntry (.parsed ⟨false, false, false, false, none⟩) = none ∧
    convertSclToJsonHandler (.error "no block keyword found") =
      .fail "SCL to JSON conversion failed - check SCL syntax and structure" :=
  ⟨by decide,
    (malformed_input_propagation ⟨false, false, false, false, none⟩
      "no block keyword found" (by decide)).2.2.2.2.2.1,
    (malformed_input_propagation ⟨false, false, false, false, none⟩
      "no block keyword found" (by decide)).2.2.2.2.1⟩

end TiaConv
